import Mathlib

/-!
Verification development for the food-lookup and nutrient-aggregation core of the
Michael-app repository.  The definitions below are a shallow embedding of the
TypeScript source:

* `src/components/ui/AddExtraMealModal.tsx` — `normalizeText`, `searchFoods`
  (20-result cap), `addFoodToMeal`, `removeFood`, `updateFoodQuantity`, `mealTotals`;
* `src/components/layout/BottomNav.tsx` (FoodSelect part) — `parseBrazilianNumber`,
  `normalizeText`, the debounced `searchFoods` (30-result cap).

Strings are modelled as `List Char`; JavaScript numbers are modelled as `ℚ`
(the arithmetic in the source stays well inside the range where IEEE doubles
behave like exact rationals on the spec's examples); `Math.round` is modelled as
`fun x => ⌊x + 1/2⌋`, which is exactly the ECMAScript definition for finite
arguments.  Where division by zero matters (the rescale path), the embedding
refines the result type to `Option ℚ`, `none` standing for the non-finite
doubles (`Infinity`/`NaN`) that JavaScript produces instead of raising.
-/

/-- Models ECMAScript `Math.round` on finite doubles: round half toward positive
infinity, i.e. `⌊x + 1/2⌋`. -/
def jsRound (x : ℚ) : ℤ := ⌊x + 1/2⌋

/-- Models `String.prototype.toLowerCase` on the alphabet occurring in this
application's food names: ASCII letters plus the precomposed accented Latin
letters of Portuguese. -/
def jsToLower (c : Char) : Char :=
  if c = 'Á' then 'á' else if c = 'À' then 'à' else if c = 'Â' then 'â'
  else if c = 'Ã' then 'ã' else if c = 'Ä' then 'ä'
  else if c = 'Ç' then 'ç'
  else if c = 'É' then 'é' else if c = 'È' then 'è'
  else if c = 'Ê' then 'ê' else if c = 'Ë' then 'ë'
  else if c = 'Í' then 'í' else if c = 'Ì' then 'ì'
  else if c = 'Î' then 'î' else if c = 'Ï' then 'ï'
  else if c = 'Ó' then 'ó' else if c = 'Ò' then 'ò'
  else if c = 'Ô' then 'ô' else if c = 'Õ' then 'õ' else if c = 'Ö' then 'ö'
  else if c = 'Ú' then 'ú' else if c = 'Ù' then 'ù'
  else if c = 'Û' then 'û' else if c = 'Ü' then 'ü'
  else if c = 'Ñ' then 'ñ'
  else c.toLower

/-- Models Unicode canonical decomposition (`String.prototype.normalize('NFD')`)
on the same alphabet: each precomposed accented letter decomposes into its base
letter followed by a combining diacritical mark in U+0300..U+036F; every other
character is its own decomposition. -/
def nfdChar (c : Char) : List Char :=
  if c = 'á' then ['a', '́'] else if c = 'à' then ['a', '̀']
  else if c = 'â' then ['a', '̂'] else if c = 'ã' then ['a', '̃']
  else if c = 'ä' then ['a', '̈']
  else if c = 'ç' then ['c', '̧']
  else if c = 'é' then ['e', '́'] else if c = 'è' then ['e', '̀']
  else if c = 'ê' then ['e', '̂'] else if c = 'ë' then ['e', '̈']
  else if c = 'í' then ['i', '́'] else if c = 'ì' then ['i', '̀']
  else if c = 'î' then ['i', '̂'] else if c = 'ï' then ['i', '̈']
  else if c = 'ó' then ['o', '́'] else if c = 'ò' then ['o', '̀']
  else if c = 'ô' then ['o', '̂'] else if c = 'õ' then ['o', '̃']
  else if c = 'ö' then ['o', '̈']
  else if c = 'ú' then ['u', '́'] else if c = 'ù' then ['u', '̀']
  else if c = 'û' then ['u', '̂'] else if c = 'ü' then ['u', '̈']
  else if c = 'ñ' then ['n', '̃']
  else [c]

/-- Tests membership in the combining-diacritical-marks block stripped by the
source's regex `/[̀-ͯ]/g`. -/
def isCombining (c : Char) : Bool :=
  decide (0x300 ≤ c.toNat) && decide (c.toNat ≤ 0x36F)

/-- Models `String.prototype.trim`: drop leading and trailing whitespace. -/
def trimChars (s : List Char) : List Char :=
  ((s.dropWhile Char.isWhitespace).reverse.dropWhile Char.isWhitespace).reverse

/-- Shallow embedding of `normalizeText` (AddExtraMealModal.tsx lines 38-45 and
the identical copy in the FoodSelect component): lowercase, canonical (NFD)
decomposition, strip combining marks U+0300..U+036F, replace every comma by a
space, trim. -/
def normalizeText (s : List Char) : List Char :=
  trimChars
    ((((s.map jsToLower).flatMap nfdChar).filter (fun c => !isCombining c)).map
      (fun c => if c = ',' then ' ' else c))

/-- Splits on runs of whitespace, dropping empty fragments: models
`str.split(/\s+/).filter(w => w.length > 0)`. -/
def splitWsAux : List Char → List Char → List (List Char)
  | [], cur => if cur.isEmpty then [] else [cur.reverse]
  | c :: cs, cur =>
    if c.isWhitespace then
      (if cur.isEmpty then splitWsAux cs [] else cur.reverse :: splitWsAux cs [])
    else splitWsAux cs (c :: cur)

/-- Word list of a string: split on whitespace, empty words dropped. -/
def splitWords (s : List Char) : List (List Char) := splitWsAux s []

/-- Boolean test that `p` is an initial segment of `s`; models
`String.prototype.startsWith` (first argument is the candidate initial
segment). -/
def isPrefixB : List Char → List Char → Bool
  | [], _ => true
  | _ :: _, [] => false
  | a :: as, b :: bs => a == b && isPrefixB as bs

/-- Boolean substring test; models `hay.includes(needle)`. -/
def jsIncludes (hay needle : List Char) : Bool :=
  match hay with
  | [] => isPrefixB needle []
  | c :: t => isPrefixB needle (c :: t) || jsIncludes t needle

/-- Lexicographic order on character lists by code point.  This models
`a.localeCompare(b) <= 0` on the normalized alphabet: after `normalizeText`
the names are lowercase and diacritic-free, where the pt-BR collation used by
`localeCompare` coincides with code-point order. -/
def lexLe : List Char → List Char → Bool
  | [], _ => true
  | _ :: _, [] => false
  | a :: as, b :: bs => if a = b then lexLe as bs else decide (a < b)

/-- A row of the `tabela_taco` reference table, restricted to the fields the
search logic reads (`id` for identity, `alimento` for the display name). -/
structure TabelaTaco where
  id : Nat
  alimento : List Char
deriving DecidableEq

/-- Word list of the normalized query, as computed in both `searchFoods`
implementations. -/
def searchWords (term : List Char) : List (List Char) :=
  splitWords (normalizeText term)

/-- Filter predicate of both `searchFoods` implementations: every query word is
a substring of the normalized display name. -/
def foodMatches (words : List (List Char)) (food : TabelaTaco) : Bool :=
  words.all (fun w => jsIncludes (normalizeText food.alimento) w)

/-- The filter stage of `searchFoods` (AddExtraMealModal.tsx lines 79-82,
FoodSelect lines 128-133). -/
def filteredFoods (term : List Char) (data : List TabelaTaco) : List TabelaTaco :=
  data.filter (foodMatches (searchWords term))

/-- Non-strict order induced by the sort comparator of `searchFoods`
(AddExtraMealModal.tsx lines 84-93, FoodSelect lines 136-147): `foodLe words a b`
holds exactly when the comparator returns a non-positive number on `(a, b)` —
the comparator returns `-1` when only `a`'s normalized name starts with the
first query word, `1` when only `b`'s does, and `localeCompare` of the
normalized names otherwise. -/
def foodLe (words : List (List Char)) (a b : TabelaTaco) : Bool :=
  let aName := normalizeText a.alimento
  let bName := normalizeText b.alimento
  let firstWord := words.headD []
  let aS := isPrefixB firstWord aName
  let bS := isPrefixB firstWord bName
  if aS && !bS then true
  else if !aS && bS then false
  else lexLe aName bName

/-- Shallow embedding of `searchFoods` applied to an already-fetched candidate
list: minimum raw-length gate, filter, comparator sort (JavaScript's sort is
modelled by a stable comparison sort), truncation to `cap` items.  The data
fetch itself (Supabase, 500-row cap) is external to this core. -/
def searchPipeline (cap : Nat) (term : List Char) (data : List TabelaTaco) :
    List TabelaTaco :=
  if term.length < 2 then []
  else
    (List.insertionSort (fun a b => foodLe (searchWords term) a b = true)
      (filteredFoods term data)).take cap

/-- The compact add-meal search (AddExtraMealModal.tsx lines 55-102): results
capped at 20. -/
def searchFoodsModal (term : List Char) (data : List TabelaTaco) : List TabelaTaco :=
  searchPipeline 20 term data

/-- The interactive inline search (FoodSelect, lines 103-157): results capped
at 30. -/
def searchFoodsSelect (term : List Char) (data : List TabelaTaco) : List TabelaTaco :=
  searchPipeline 30 term data

/-- A per-100g nutrient quadruple (also used for aggregate totals). -/
structure NutrientVals where
  calories : ℚ
  protein : ℚ
  carbs : ℚ
  fats : ℚ
deriving DecidableEq

/-- A food added to the in-progress extra meal (`ExtraFood` in the source):
freshly generated identifier, presentation name, chosen quantity in grams, and
the four scaled nutrient values (calories rounded to whole units, macros to one
decimal place). -/
structure ExtraFood where
  id : String
  name : String
  quantity : ℚ
  calories : ℚ
  protein : ℚ
  carbs : ℚ
  fats : ℚ
deriving DecidableEq

/-- The scaling core of `addFoodToMeal` (AddExtraMealModal.tsx lines 120-131):
`multiplier = qty / 100`; calories are `Math.round(per100g * multiplier)`,
macros are `Math.round(per100g * multiplier * 10) / 10`. -/
def scale (per100g : NutrientVals) (qty : ℚ) : NutrientVals :=
  { calories := (jsRound (per100g.calories * (qty / 100)) : ℚ)
    protein := (jsRound (per100g.protein * (qty / 100) * 10) : ℚ) / 10
    carbs := (jsRound (per100g.carbs * (qty / 100) * 10) : ℚ) / 10
    fats := (jsRound (per100g.fats * (qty / 100) * 10) : ℚ) / 10 }

/-- Per-item body of `updateFoodQuantity` (AddExtraMealModal.tsx lines 150-157):
each nutrient is recovered to a per-100g rate by dividing the current scaled
value by `quantity / 100` and then rescaled to the new quantity.  Division here
is field division on `ℚ` (so `x / 0 = 0`); the zero-quantity behaviour of the
actual JavaScript expressions is modelled separately below with `jsDiv`. -/
def rescaleFood (f : ExtraFood) (qty : ℚ) : ExtraFood :=
  { f with
    quantity := qty
    calories := (jsRound (f.calories / (f.quantity / 100) * (qty / 100)) : ℚ)
    protein := (jsRound (f.protein / (f.quantity / 100) * (qty / 100) * 10) : ℚ) / 10
    carbs := (jsRound (f.carbs / (f.quantity / 100) * (qty / 100) * 10) : ℚ) / 10
    fats := (jsRound (f.fats / (f.quantity / 100) * (qty / 100) * 10) : ℚ) / 10 }

/-- Shallow embedding of `updateFoodQuantity` (AddExtraMealModal.tsx lines
143-159) after the quantity string has been parsed: items whose identifier
differs are returned unchanged, the matching item is rescaled. -/
def updateFoodQuantity (foods : List ExtraFood) (id : String) (qty : ℚ) :
    List ExtraFood :=
  foods.map (fun f => if f.id ≠ id then f else rescaleFood f qty)

/-- Shallow embedding of `removeFood` (AddExtraMealModal.tsx lines 139-141). -/
def removeFood (foods : List ExtraFood) (id : String) : List ExtraFood :=
  foods.filter (fun f => f.id ≠ id)

/-- Shallow embedding of `mealTotals` (AddExtraMealModal.tsx lines 161-169):
a left fold summing each nutrient field, starting from all-zero totals. -/
def mealTotals (foods : List ExtraFood) : NutrientVals :=
  foods.foldl
    (fun acc food =>
      { calories := acc.calories + food.calories
        protein := acc.protein + food.protein
        carbs := acc.carbs + food.carbs
        fats := acc.fats + food.fats })
    ⟨0, 0, 0, 0⟩

/-- Division as JavaScript doubles perform it, refined to make non-finite
results observable: dividing a finite number by zero yields `Infinity`,
`-Infinity` or `NaN`, all modelled by `none`. -/
def jsDiv (a b : ℚ) : Option ℚ := if b = 0 then none else some (a / b)

/-- The calories expression of `updateFoodQuantity` (line 153) under `jsDiv`:
`Math.round((f.calories / (f.quantity / 100)) * (qty / 100))`, with `none`
propagated through multiplication and `Math.round` exactly as JavaScript
propagates non-finite doubles. -/
def rescaledCaloriesJS (f : ExtraFood) (qty : ℚ) : Option ℚ :=
  (jsDiv f.calories (f.quantity / 100)).map (fun r => (jsRound (r * (qty / 100)) : ℚ))

/-- The protein expression of `updateFoodQuantity` (line 154) under `jsDiv`. -/
def rescaledProteinJS (f : ExtraFood) (qty : ℚ) : Option ℚ :=
  (jsDiv f.protein (f.quantity / 100)).map
    (fun r => (jsRound (r * (qty / 100) * 10) : ℚ) / 10)

/-- The carbs expression of `updateFoodQuantity` (line 155) under `jsDiv`. -/
def rescaledCarbsJS (f : ExtraFood) (qty : ℚ) : Option ℚ :=
  (jsDiv f.carbs (f.quantity / 100)).map
    (fun r => (jsRound (r * (qty / 100) * 10) : ℚ) / 10)

/-- The fats expression of `updateFoodQuantity` (line 156) under `jsDiv`. -/
def rescaledFatsJS (f : ExtraFood) (qty : ℚ) : Option ℚ :=
  (jsDiv f.fats (f.quantity / 100)).map
    (fun r => (jsRound (r * (qty / 100) * 10) : ℚ) / 10)

/-- The guard that `updateFoodQuantity` computes at line 149 and then never
uses: `originalMultiplier > 0 ? newMultiplier / originalMultiplier :
newMultiplier`.  None of the returned nutrient expressions (lines 153-156)
mention it; they divide by `f.quantity / 100` unconditionally. -/
def ratioVar (f : ExtraFood) (qty : ℚ) : ℚ :=
  if f.quantity / 100 > 0 then (qty / 100) / (f.quantity / 100) else qty / 100

/-- Value of a digit character. -/
def digitVal (c : Char) : ℕ := c.toNat - '0'.toNat

/-- Value of a digit string read left to right. -/
def digitsToNat (ds : List Char) : ℕ :=
  ds.foldl (fun a c => 10 * a + digitVal c) 0

/-- Exponent digits after the `e`/`E` marker: an optional sign, then decimal
digits.  If no digit follows, `parseFloat` backtracks over the marker and the
exponent is `0`; only the value matters here because nothing is parsed after
the exponent. -/
def parseExpDigits (d : List Char) : ℤ :=
  match d with
  | x :: r =>
    if x = '+' ∨ x = '-' then
      let ds := r.takeWhile Char.isDigit
      if ds.isEmpty then 0
      else if x = '-' then -(digitsToNat ds : ℤ) else (digitsToNat ds : ℤ)
    else
      let ds := d.takeWhile Char.isDigit
      if ds.isEmpty then 0 else (digitsToNat ds : ℤ)
  | [] => 0

/-- Exponent marker dispatch: an `e`/`E` followed by a well-formed exponent
contributes its value; anything else contributes exponent `0`. -/
def parseExponent (s : List Char) : ℤ :=
  match s with
  | c :: rest => if c = 'e' ∨ c = 'E' then parseExpDigits rest else 0
  | [] => 0

/-- Continuation of the literal parse after a decimal point has been consumed:
`ip` is the integer part already read, `s2` what follows the point.  Mirrors the
`DecimalDigits? '.' DecimalDigits? ExponentPart?` production of the ECMAScript
`StrDecimalLiteral` grammar, failing when both digit groups are empty. -/
def parseFrac (ip : List Char) (s2 : List Char) : Option ℚ :=
  let fp := s2.takeWhile Char.isDigit
  let s3 := s2.dropWhile Char.isDigit
  if ip.isEmpty && fp.isEmpty then none
  else
    some (((digitsToNat ip : ℚ) + (digitsToNat fp : ℚ) / 10 ^ fp.length)
      * 10 ^ parseExponent s3)

/-- Continuation of the unsigned-literal parse after the integer-part digit
run `ip`: an optional decimal point with fraction, or an optional exponent. -/
def parseAfterDigits (ip : List Char) : List Char → Option ℚ
  | c :: s2 =>
    if c = '.' then parseFrac ip s2
    else if ip.isEmpty then none
    else some ((digitsToNat ip : ℚ) * 10 ^ parseExponent (c :: s2))
  | [] =>
    if ip.isEmpty then none
    else some ((digitsToNat ip : ℚ) * 10 ^ parseExponent ([] : List Char))

/-- Unsigned ECMAScript decimal literal at the head of `s`, longest match,
`none` when no valid literal starts there.  (The `Infinity` literal is omitted:
it cannot be represented in `ℚ` and never arises from the nutrient strings this
parser is applied to.) -/
def parseUnsigned (s : List Char) : Option ℚ :=
  parseAfterDigits (s.takeWhile Char.isDigit) (s.dropWhile Char.isDigit)

/-- Optionally signed literal. -/
def parseSigned (s : List Char) : Option ℚ :=
  match s with
  | c :: r =>
    if c = '+' then parseUnsigned r
    else if c = '-' then (parseUnsigned r).map Neg.neg
    else parseUnsigned (c :: r)
  | [] => parseUnsigned []

/-- Models ECMAScript `parseFloat` on finite values: skip leading whitespace,
parse the longest optionally-signed decimal literal, `none` for `NaN`. -/
def parseFloatJS (s : List Char) : Option ℚ :=
  parseSigned (s.dropWhile Char.isWhitespace)

/-- Models `String.prototype.replace(',', '.')` with a string pattern, which
replaces only the first occurrence — this is what the source calls. -/
def replaceFirst : List Char → List Char
  | [] => []
  | c :: r => if c = ',' then '.' :: r else c :: replaceFirst r

/-- Replaces every comma by a period, as the specification's words describe. -/
def replaceAll (s : List Char) : List Char :=
  s.map (fun c => if c = ',' then '.' else c)

/-- The union type `string | number | null | undefined` accepted by
`parseBrazilianNumber`. -/
inductive JSVal where
  | num (q : ℚ)
  | str (s : List Char)
  | null
  | undefined

/-- Shallow embedding of `parseBrazilianNumber` (FoodSelect component, lines
39-48): numbers pass through; falsy inputs (null, undefined, the empty string)
give 0; otherwise the first comma is replaced by a period, the result parsed
with `parseFloat`, and `NaN` coerced to 0. -/
def parseBrazilianNumber : JSVal → ℚ
  | .num q => q
  | .null => 0
  | .undefined => 0
  | .str s => if s.isEmpty then 0 else (parseFloatJS (replaceFirst s)).getD 0

/-- Modelled from the spec: the numeric normalizer exactly as §4.1 words it,
with every comma (not just the first) replaced by a period before parsing.
Used to compare the specified behaviour with `parseBrazilianNumber`. -/
def parseLocaleNumberSpec : JSVal → ℚ
  | .num q => q
  | .null => 0
  | .undefined => 0
  | .str s => if s.isEmpty then 0 else (parseFloatJS (replaceAll s)).getD 0

/-- Whether the candidate's normalized name starts with the first query word
(the ranking key of the claim). -/
def startsWithFirst (term : List Char) (f : TabelaTaco) : Bool :=
  isPrefixB ((searchWords term).headD []) (normalizeText f.alimento)

/-- The ordering the specification claims for ranked results: a candidate whose
normalized name starts with the first query word comes before one whose does
not, and within each group names are in ascending alphabetical order. -/
def rankedBefore (term : List Char) (a b : TabelaTaco) : Prop :=
  (startsWithFirst term b = true → startsWithFirst term a = true) ∧
  (startsWithFirst term a = startsWithFirst term b →
    lexLe (normalizeText a.alimento) (normalizeText b.alimento) = true)

/-- A sample record with a diacritic in its name, used to instantiate the
search theorems. -/
def paoRec : TabelaTaco := ⟨1, "Pão".data⟩

/-- A sample record whose name contains a comma-separated clause, used to
instantiate the search theorems. -/
def arrozRec : TabelaTaco := ⟨2, "Arroz, Integral Cozido".data⟩

/-- Sample selected item used to instantiate the item-collection theorems. -/
def foodA : ExtraFood := ⟨"a", "Arroz", 100, 10, 1, 2, 3⟩

/-- Second sample selected item. -/
def foodB : ExtraFood := ⟨"b", "Banana", 50, 20, 4, 5, 6⟩

/-- Item with current quantity zero, the degenerate case of the rescale
claim. -/
def zeroQtyFood : ExtraFood := ⟨"z", "Zero", 0, 5, 2, 3, 1⟩

/-- Item with a large quantity on which the round-trip claim fails. -/
def bigQtyFood : ExtraFood := ⟨"c", "Cereal", 1000, 2, 0, 0, 0⟩

/-- The rounded value overshoots its argument by at most `1/2`. -/
theorem jsRound_le (x : ℚ) : (jsRound x : ℚ) ≤ x + 1/2 := by
  unfold jsRound
  exact_mod_cast Int.floor_le (x + 1/2)

/-- The rounded value undershoots its argument by less than `1/2`. -/
theorem jsRound_gt (x : ℚ) : x - 1/2 < (jsRound x : ℚ) := by
  unfold jsRound
  have h := Int.lt_floor_add_one (x + 1/2)
  push_cast at h
  linarith

/-- The rounded value is within `1/2` of its argument (rounding to nearest). -/
theorem abs_jsRound_sub_le (x : ℚ) : |(jsRound x : ℚ) - x| ≤ 1/2 := by
  rw [abs_le]
  constructor
  · have := jsRound_gt x
    linarith
  · have := jsRound_le x
    linarith

/-- Characterization of the `startsWith` model: `p` is an initial segment. -/
theorem isPrefixB_iff : ∀ (p s : List Char), isPrefixB p s = true ↔ ∃ t, s = p ++ t
  | [], s => by simp [isPrefixB]
  | a :: as, [] => by simp [isPrefixB]
  | a :: as, b :: bs => by
    simp only [isPrefixB, Bool.and_eq_true, beq_iff_eq]
    constructor
    · rintro ⟨rfl, h⟩
      obtain ⟨t, rfl⟩ := (isPrefixB_iff as bs).1 h
      exact ⟨t, rfl⟩
    · rintro ⟨t, ht⟩
      injection ht with h1 h2
      subst h1
      exact ⟨rfl, (isPrefixB_iff as bs).2 ⟨t, h2⟩⟩

/-- Characterization of the `includes` model: the needle occurs as a contiguous
substring of the haystack. -/
theorem jsIncludes_iff :
    ∀ (hay needle : List Char),
      jsIncludes hay needle = true ↔ ∃ a b, hay = a ++ needle ++ b
  | [], needle => by
    constructor
    · intro h
      obtain ⟨t, ht⟩ := (isPrefixB_iff needle []).1 (by simpa [jsIncludes] using h)
      rcases List.append_eq_nil.mp ht.symm with ⟨h1, h2⟩
      exact ⟨[], [], by simp [h1]⟩
    · rintro ⟨a, b, hab⟩
      rcases List.append_eq_nil.mp hab.symm with ⟨h1, h2⟩
      rcases List.append_eq_nil.mp h1 with ⟨h3, h4⟩
      simp [jsIncludes, h4, isPrefixB]
  | c :: t, needle => by
    simp only [jsIncludes, Bool.or_eq_true]
    rw [isPrefixB_iff, jsIncludes_iff t needle]
    constructor
    · rintro (⟨r, hr⟩ | ⟨a, b, hab⟩)
      · exact ⟨[], r, by simpa using hr⟩
      · exact ⟨c :: a, b, by simp [hab]⟩
    · rintro ⟨a, b, hab⟩
      cases a with
      | nil => exact Or.inl ⟨b, by simpa using hab⟩
      | cons a' as' =>
        injection hab with h1 h2
        exact Or.inr ⟨as', b, by simpa using h2⟩

/-- Totality of the lexicographic order model. -/
theorem lexLe_total : ∀ (a b : List Char), lexLe a b = true ∨ lexLe b a = true
  | [], _ => Or.inl rfl
  | _ :: _, [] => Or.inr rfl
  | a :: as, b :: bs => by
    by_cases h : a = b
    · subst h
      simpa [lexLe] using lexLe_total as bs
    · rcases lt_trichotomy a b with hlt | heq | hgt
      · exact Or.inl (by simp [lexLe, h, hlt])
      · exact absurd heq h
      · exact Or.inr (by simp [lexLe, Ne.symm h, hgt])

/-- Transitivity of the lexicographic order model. -/
theorem lexLe_trans :
    ∀ (a b c : List Char), lexLe a b = true → lexLe b c = true → lexLe a c = true
  | [], _, _, _, _ => rfl
  | _ :: _, [], _, h1, _ => absurd h1 (by simp [lexLe])
  | _ :: _, _ :: _, [], _, h2 => absurd h2 (by simp [lexLe])
  | a :: as, b :: bs, c :: cs, h1, h2 => by
    by_cases hab : a = b
    · subst hab
      by_cases hbc : a = c
      · subst hbc
        simp only [lexLe, if_pos rfl] at h1 h2 ⊢
        exact lexLe_trans as bs cs h1 h2
      · simpa [lexLe, hbc] using (by simpa [lexLe, hbc] using h2 : a < c)
    · by_cases hbc : b = c
      · subst hbc
        simpa [lexLe, hab] using (by simpa [lexLe, hab] using h1 : a < b)
      · have h1' : a < b := by simpa [lexLe, hab] using h1
        have h2' : b < c := by simpa [lexLe, hbc] using h2
        have hac : a < c := lt_trans h1' h2'
        simp [lexLe, ne_of_lt hac, hac]

/-- Totality of the comparator order: the source comparator never reports both
orders strict, so one of `foodLe a b`, `foodLe b a` always holds. -/
theorem foodLe_total (w : List (List Char)) (a b : TabelaTaco) :
    foodLe w a b = true ∨ foodLe w b a = true := by
  simp only [foodLe]
  set aS := isPrefixB (w.headD []) (normalizeText a.alimento) with hA
  set bS := isPrefixB (w.headD []) (normalizeText b.alimento) with hB
  clear_value aS bS
  cases aS <;> cases bS <;> simp <;> exact lexLe_total _ _

/-- Transitivity of the comparator order. -/
theorem foodLe_trans (w : List (List Char)) (a b c : TabelaTaco)
    (hab : foodLe w a b = true) (hbc : foodLe w b c = true) :
    foodLe w a c = true := by
  simp only [foodLe] at hab hbc ⊢
  set aS := isPrefixB (w.headD []) (normalizeText a.alimento) with hA
  set bS := isPrefixB (w.headD []) (normalizeText b.alimento) with hB
  set cS := isPrefixB (w.headD []) (normalizeText c.alimento) with hC
  clear_value aS bS cS
  cases aS <;> cases bS <;> cases cS
  case false.false.false =>
    simp at hab hbc ⊢
    exact lexLe_trans _ _ _ hab hbc
  case false.false.true => simp at hbc
  case false.true.false => simp at hab
  case false.true.true => simp at hab
  case true.false.false => simp
  case true.false.true => simp at hbc
  case true.true.false => simp
  case true.true.true =>
    simp at hab hbc ⊢
    exact lexLe_trans _ _ _ hab hbc

/-- The comparator order coincides with the claimed ranking relation. -/
theorem foodLe_iff_rankedBefore (term : List Char) (a b : TabelaTaco) :
    foodLe (searchWords term) a b = true ↔ rankedBefore term a b := by
  simp only [foodLe, rankedBefore, startsWithFirst]
  set aS := isPrefixB ((searchWords term).headD []) (normalizeText a.alimento) with hA
  set bS := isPrefixB ((searchWords term).headD []) (normalizeText b.alimento) with hB
  clear_value aS bS
  cases aS <;> cases bS <;> simp

/-- The truncation stage caps the result length. -/
theorem searchPipeline_length_le (cap : Nat) (term : List Char)
    (data : List TabelaTaco) : (searchPipeline cap term data).length ≤ cap := by
  unfold searchPipeline
  split
  · simp
  · simp [List.length_take]

/-- Every result of the pipeline is a matching candidate. -/
theorem searchPipeline_subset (cap : Nat) (term : List Char)
    (data : List TabelaTaco) :
    searchPipeline cap term data ⊆ filteredFoods term data := by
  unfold searchPipeline
  split
  · intro x hx
    simp at hx
  · intro x hx
    exact ((List.perm_insertionSort _ _).mem_iff).1 (List.mem_of_mem_take hx)

/-- The pipeline output is sorted by the claimed ranking relation. -/
theorem searchPipeline_pairwise (cap : Nat) (term : List Char)
    (data : List TabelaTaco) :
    (searchPipeline cap term data).Pairwise (rankedBefore term) := by
  unfold searchPipeline
  split
  · exact List.Pairwise.nil
  · apply List.Pairwise.sublist (List.take_sublist _ _)
    haveI : IsTotal TabelaTaco (fun a b => foodLe (searchWords term) a b = true) :=
      ⟨fun a b => foodLe_total _ a b⟩
    haveI : IsTrans TabelaTaco (fun a b => foodLe (searchWords term) a b = true) :=
      ⟨fun a b c => foodLe_trans _ a b c⟩
    have hs := List.sorted_insertionSort
      (fun a b => foodLe (searchWords term) a b = true) (filteredFoods term data)
    exact hs.imp (fun h => (foodLe_iff_rankedBefore term _ _).1 h)

/-- The head surviving a `dropWhile` fails the dropped predicate. -/
theorem head?_dropWhile {α : Type} (p : α → Bool) :
    ∀ (l : List α) {c : α}, (l.dropWhile p).head? = some c → p c = false
  | [], c, h => by simp [List.dropWhile] at h
  | a :: t, c, h => by
    by_cases hpa : p a = true
    · rw [List.dropWhile_cons, if_pos hpa] at h
      exact head?_dropWhile p t h
    · rw [List.dropWhile_cons, if_neg hpa] at h
      simp only [List.head?_cons, Option.some.injEq] at h
      subst h
      simpa using hpa

/-- A nonempty `dropWhile` keeps the last element of the list. -/
theorem getLast?_dropWhile {α : Type} (p : α → Bool) (l : List α) {c : α}
    (h : (l.dropWhile p).getLast? = some c) : l.getLast? = some c := by
  rw [← List.takeWhile_append_dropWhile p l, List.getLast?_append, h]
  rfl

/-- Trimming only removes elements. -/
theorem mem_trimChars {c : Char} {s : List Char} (h : c ∈ trimChars s) : c ∈ s := by
  unfold trimChars at h
  rw [List.mem_reverse] at h
  have h1 := (List.dropWhile_sublist _).subset h
  rw [List.mem_reverse] at h1
  exact (List.dropWhile_sublist _).subset h1

/-- Membership in the normalized text comes from the pre-trim pipeline. -/
theorem mem_normalizeText {c : Char} {s : List Char} (h : c ∈ normalizeText s) :
    ∃ d, (!isCombining d) = true ∧ c = (if d = ',' then ' ' else d) := by
  unfold normalizeText at h
  have h1 := mem_trimChars h
  obtain ⟨d, hd, hcd⟩ := List.mem_map.1 h1
  exact ⟨d, (List.mem_filter.1 hd).2, hcd.symm⟩

/-- C7 (amended): `normalizeText` lowercases, strips combining diacritical
marks after canonical decomposition, replaces every comma with a space, and
trims the ends.  Because the replacement keeps the space that already followed
the comma, `normalize("Arroz, Integral Cozido")` is `"arroz  integral cozido"`
with two consecutive spaces; `normalize("Pão") = "pao"`.  In addition, the
output never contains a comma, never contains a combining mark, and never
starts or ends with whitespace. -/
theorem normalizeText_facts :
    normalizeText "Arroz, Integral Cozido".data = "arroz  integral cozido".data ∧
    normalizeText "Pão".data = "pao".data ∧
    (∀ s : List Char, ',' ∉ normalizeText s) ∧
    (∀ (s : List Char) (c : Char), c ∈ normalizeText s → isCombining c = false) ∧
    (∀ (s : List Char) (c : Char),
      (normalizeText s).head? = some c → c.isWhitespace = false) ∧
    (∀ (s : List Char) (c : Char),
      (normalizeText s).getLast? = some c → c.isWhitespace = false) := by
  refine ⟨by decide, by decide, ?_, ?_, ?_, ?_⟩
  · intro s h
    obtain ⟨d, hd, hcd⟩ := mem_normalizeText h
    by_cases hdc : d = ','
    · rw [if_pos hdc] at hcd
      exact absurd hcd (by decide)
    · rw [if_neg hdc] at hcd
      exact hdc hcd.symm
  · intro s c h
    obtain ⟨d, hd, hcd⟩ := mem_normalizeText h
    by_cases hdc : d = ','
    · rw [if_pos hdc] at hcd
      subst hcd
      decide
    · rw [if_neg hdc] at hcd
      subst hcd
      simpa using hd
  · intro s c h
    unfold normalizeText trimChars at h
    rw [List.head?_reverse] at h
    have h2 := getLast?_dropWhile _ _ h
    rw [List.getLast?_reverse] at h2
    exact head?_dropWhile _ _ h2
  · intro s c h
    unfold normalizeText trimChars at h
    rw [List.getLast?_reverse] at h
    exact head?_dropWhile _ _ h

/-- C7 counterexample: the spec's example output has a single space between
the words, but the source keeps the space that followed the comma, so the
normalized name has two. -/
theorem normalizeText_cex :
    normalizeText "Arroz, Integral Cozido".data ≠ "arroz integral cozido".data := by
  decide

/-- C7 witness: the no-comma invariant at a concrete input. -/
theorem normalizeText_facts_w : ',' ∉ normalizeText ['a', ',', 'b'] :=
  normalizeText_facts.2.2.1 ['a', ',', 'b']

/-- C6 (amended): both `searchFoods` implementations return the empty result
when the raw query is shorter than 2 characters (the source checks
`term.length < 2` on the raw term, before normalization). -/
theorem search_min_length (term : List Char) (data : List TabelaTaco)
    (h : term.length < 2) :
    searchFoodsModal term data = [] ∧ searchFoodsSelect term data = [] := by
  constructor <;> simp [searchFoodsModal, searchFoodsSelect, searchPipeline, h]

/-- C6 witness: a one-character query returns no results. -/
theorem search_min_length_w :
    searchFoodsModal ['a'] [paoRec] = [] ∧ searchFoodsSelect ['a'] [paoRec] = [] :=
  search_min_length ['a'] [paoRec] (by decide)

/-- C6 counterexample: the query `", "` has raw length 2, so the gate does not
fire, even though its normalized form is empty (length 0 < 2); with an empty
word list every record matches vacuously and the result is non-empty —
refuting the claim that a normalized query shorter than 2 characters always
yields an empty result. -/
theorem search_min_length_cex :
    (normalizeText [',', ' ']).length < 2 ∧
      searchFoodsModal [',', ' '] [paoRec] ≠ [] := by
  constructor
  · decide
  · decide

/-- C4: the ranked results are capped at 20 items for the compact add-meal
search and 30 for the interactive inline search, every returned record is a
matching candidate, and the output is ordered by the claimed ranking: records
whose normalized name starts with the first query word come before those whose
does not, and within each group names are in ascending alphabetical order. -/
theorem searchFoods_ranking_truncation (term : List Char) (data : List TabelaTaco) :
    (searchFoodsModal term data).length ≤ 20 ∧
    (searchFoodsSelect term data).length ≤ 30 ∧
    searchFoodsModal term data ⊆ filteredFoods term data ∧
    searchFoodsSelect term data ⊆ filteredFoods term data ∧
    (searchFoodsModal term data).Pairwise (rankedBefore term) ∧
    (searchFoodsSelect term data).Pairwise (rankedBefore term) :=
  ⟨searchPipeline_length_le 20 term data, searchPipeline_length_le 30 term data,
   searchPipeline_subset 20 term data, searchPipeline_subset 30 term data,
   searchPipeline_pairwise 20 term data, searchPipeline_pairwise 30 term data⟩

/-- C4 witness: a concrete instantiation of the cap bound. -/
theorem searchFoods_ranking_truncation_w :
    (searchFoodsModal "ar".data [arrozRec, paoRec]).length ≤ 20 :=
  (searchFoods_ranking_truncation "ar".data [arrozRec, paoRec]).1

/-- C3: when the normalized query splits into a non-empty word list, a record
is in the filtered candidate set if and only if it is a candidate and every
query word occurs as a contiguous substring of its normalized display name
(AND semantics, substring rather than initial-segment matching); moreover
every record either search returns satisfies the same matching condition. -/
theorem search_match_iff (term : List Char) (data : List TabelaTaco)
    (food : TabelaTaco) (hw : searchWords term ≠ []) :
    (food ∈ filteredFoods term data ↔
      food ∈ data ∧
        ∀ w ∈ searchWords term,
          ∃ pre post, normalizeText food.alimento = pre ++ w ++ post) ∧
    (food ∈ searchFoodsModal term data →
      ∀ w ∈ searchWords term,
        ∃ pre post, normalizeText food.alimento = pre ++ w ++ post) ∧
    (food ∈ searchFoodsSelect term data →
      ∀ w ∈ searchWords term,
        ∃ pre post, normalizeText food.alimento = pre ++ w ++ post) := by
  have key : ∀ g : TabelaTaco, foodMatches (searchWords term) g = true ↔
      ∀ w ∈ searchWords term,
        ∃ pre post, normalizeText g.alimento = pre ++ w ++ post := by
    intro g
    rw [foodMatches, List.all_eq_true]
    constructor
    · intro h w hwmem
      exact (jsIncludes_iff _ _).1 (h w hwmem)
    · intro h w hwmem
      exact (jsIncludes_iff _ _).2 (h w hwmem)
  refine ⟨?_, ?_, ?_⟩
  · rw [filteredFoods, List.mem_filter, key food]
  · intro hmem
    exact (key food).1 (List.mem_filter.1 (searchPipeline_subset 20 term data hmem)).2
  · intro hmem
    exact (key food).1 (List.mem_filter.1 (searchPipeline_subset 30 term data hmem)).2

/-- C3 witness: the filter-stage equivalence instantiated at a concrete
two-word query and a concrete candidate list. -/
theorem search_match_iff_w :
    arrozRec ∈ filteredFoods "arr int".data [arrozRec, paoRec] ↔
      arrozRec ∈ [arrozRec, paoRec] ∧
        ∀ w ∈ searchWords "arr int".data,
          ∃ pre post, normalizeText arrozRec.alimento = pre ++ w ++ post :=
  (search_match_iff "arr int".data [arrozRec, paoRec] arrozRec (by decide)).1

/-- The fold computing `mealTotals` sums each field. -/
theorem mealTotals_eq_sums (l : List ExtraFood) :
    mealTotals l =
      ⟨(l.map ExtraFood.calories).sum, (l.map ExtraFood.protein).sum,
       (l.map ExtraFood.carbs).sum, (l.map ExtraFood.fats).sum⟩ := by
  have aux : ∀ (l : List ExtraFood) (acc : NutrientVals),
      l.foldl
        (fun acc food =>
          { calories := acc.calories + food.calories
            protein := acc.protein + food.protein
            carbs := acc.carbs + food.carbs
            fats := acc.fats + food.fats })
        acc =
      ⟨acc.calories + (l.map ExtraFood.calories).sum,
       acc.protein + (l.map ExtraFood.protein).sum,
       acc.carbs + (l.map ExtraFood.carbs).sum,
       acc.fats + (l.map ExtraFood.fats).sum⟩ := by
    intro l
    induction l with
    | nil => intro acc; simp
    | cons f t ih =>
      intro acc
      simp only [List.foldl_cons, List.map_cons, List.sum_cons, ih]
      simp only [NutrientVals.mk.injEq]
      refine ⟨by ring, by ring, by ring, by ring⟩
  rw [mealTotals, aux]
  simp

/-- C8: the meal totals are the per-field sums of the selected items' scaled
values; the empty collection gives all-zero totals, and any permutation of the
items gives equal totals. -/
theorem mealTotals_spec :
    mealTotals [] = ⟨0, 0, 0, 0⟩ ∧
    (∀ l : List ExtraFood,
      mealTotals l =
        ⟨(l.map ExtraFood.calories).sum, (l.map ExtraFood.protein).sum,
         (l.map ExtraFood.carbs).sum, (l.map ExtraFood.fats).sum⟩) ∧
    (∀ l1 l2 : List ExtraFood, l1.Perm l2 → mealTotals l1 = mealTotals l2) := by
  refine ⟨rfl, mealTotals_eq_sums, ?_⟩
  intro l1 l2 hp
  rw [mealTotals_eq_sums, mealTotals_eq_sums]
  simp only [NutrientVals.mk.injEq]
  exact ⟨(hp.map _).sum_eq, (hp.map _).sum_eq, (hp.map _).sum_eq, (hp.map _).sum_eq⟩

/-- C8 witness: order independence at a concrete two-item collection. -/
theorem mealTotals_spec_w : mealTotals [foodA, foodB] = mealTotals [foodB, foodA] :=
  mealTotals_spec.2.2 [foodA, foodB] [foodB, foodA] (List.Perm.swap foodB foodA [])

/-- C10: a quantity edit leaves every item with a different identifier
untouched, preserves the identifier and display name of the targeted item and
sets its quantity to the new value (only quantity and the four scaled nutrient
values change); removal drops exactly the items with the given identifier. -/
theorem update_remove_frame (foods : List ExtraFood) (id : String) (qty : ℚ) :
    (updateFoodQuantity foods id qty).length = foods.length ∧
    (∀ (i : ℕ) (hi : i < foods.length),
      ((foods.get ⟨i, hi⟩).id ≠ id →
        (updateFoodQuantity foods id qty)[i]? = some (foods.get ⟨i, hi⟩)) ∧
      ((foods.get ⟨i, hi⟩).id = id →
        (updateFoodQuantity foods id qty)[i]? =
          some (rescaleFood (foods.get ⟨i, hi⟩) qty) ∧
        (rescaleFood (foods.get ⟨i, hi⟩) qty).id = (foods.get ⟨i, hi⟩).id ∧
        (rescaleFood (foods.get ⟨i, hi⟩) qty).name = (foods.get ⟨i, hi⟩).name ∧
        (rescaleFood (foods.get ⟨i, hi⟩) qty).quantity = qty)) ∧
    (∀ f : ExtraFood, f ∈ removeFood foods id ↔ f ∈ foods ∧ f.id ≠ id) := by
  refine ⟨by simp [updateFoodQuantity], ?_, ?_⟩
  · intro i hi
    have hgy : (updateFoodQuantity foods id qty)[i]? =
        some (if (foods.get ⟨i, hi⟩).id ≠ id then foods.get ⟨i, hi⟩
          else rescaleFood (foods.get ⟨i, hi⟩) qty) := by
      simp [updateFoodQuantity, List.getElem?_map, List.getElem?_eq_getElem hi]
    constructor
    · intro hne
      rw [hgy, if_pos hne]
    · intro heq
      refine ⟨?_, rfl, rfl, rfl⟩
      rw [hgy, if_neg (by simpa using heq)]
  · intro f
    simp [removeFood, List.mem_filter]

/-- C10 witness: updating item `"b"` leaves the item at index 0 (identifier
`"a"`) unchanged, and removal is exactly membership with a different
identifier. -/
theorem update_remove_frame_w :
    (updateFoodQuantity [foodA, foodB] "b" 50)[0]? = some foodA ∧
    (foodA ∈ removeFood [foodA, foodB] "b" ↔
      foodA ∈ [foodA, foodB] ∧ foodA.id ≠ "b") :=
  ⟨((update_remove_frame [foodA, foodB] "b" 50).2.1 0 (by decide)).1 (by decide),
   (update_remove_frame [foodA, foodB] "b" 50).2.2 foodA⟩

/-- Auxiliary bound: a value rounded to the nearest tenth is within `1/20` of
the unrounded value. -/
theorem jsRound_tenth_close (x : ℚ) :
    |(jsRound (x * 10) : ℚ) / 10 - x| ≤ 1/20 := by
  have h := abs_jsRound_sub_le (x * 10)
  have hx : (jsRound (x * 10) : ℚ) / 10 - x = ((jsRound (x * 10) : ℚ) - x * 10) / 10 := by
    ring
  rw [hx, abs_div]
  have h10 : |(10:ℚ)| = 10 := by norm_num
  rw [h10]
  linarith

/-- C1: scaling multiplies each per-100g value by `qty / 100`, rounding
calories to the nearest whole unit and each macro to the nearest tenth (so the
results are within `1/2` resp. `1/20` of the exact proportional values), and
the spec's example scales as claimed:
`scale({124, 2.5, 25.8, 1.0}, 150) = {186, 3.8, 38.7, 1.5}`. -/
theorem scale_spec :
    (∀ (n : NutrientVals) (q : ℚ),
      (scale n q).calories = (jsRound (n.calories * (q / 100)) : ℚ) ∧
      (scale n q).protein = (jsRound (n.protein * (q / 100) * 10) : ℚ) / 10 ∧
      (scale n q).carbs = (jsRound (n.carbs * (q / 100) * 10) : ℚ) / 10 ∧
      (scale n q).fats = (jsRound (n.fats * (q / 100) * 10) : ℚ) / 10 ∧
      |(scale n q).calories - n.calories * (q / 100)| ≤ 1/2 ∧
      |(scale n q).protein - n.protein * (q / 100)| ≤ 1/20 ∧
      |(scale n q).carbs - n.carbs * (q / 100)| ≤ 1/20 ∧
      |(scale n q).fats - n.fats * (q / 100)| ≤ 1/20) ∧
    scale ⟨124, 5/2, 129/5, 1⟩ 150 = ⟨186, 19/5, 387/10, 3/2⟩ := by
  constructor
  · intro n q
    refine ⟨rfl, rfl, rfl, rfl, ?_, ?_, ?_, ?_⟩
    · exact abs_jsRound_sub_le (n.calories * (q / 100))
    · exact jsRound_tenth_close (n.protein * (q / 100))
    · exact jsRound_tenth_close (n.carbs * (q / 100))
    · exact jsRound_tenth_close (n.fats * (q / 100))
  · simp only [scale, jsRound, NutrientVals.mk.injEq]
    norm_num

/-- C2 evidence: at current quantity 0 every rescale expression of the source
divides its scaled value by `0 / 100 = 0`, producing a non-finite double
(`none` in the refined model) — the guarded `ratio` of line 149 (which would
give multiplier 1 here) is computed but never used by these expressions. -/
theorem rescale_div_zero_bug :
    rescaledCaloriesJS zeroQtyFood 100 = none ∧
    rescaledProteinJS zeroQtyFood 100 = none ∧
    rescaledCarbsJS zeroQtyFood 100 = none ∧
    rescaledFatsJS zeroQtyFood 100 = none ∧
    ratioVar zeroQtyFood 100 = 1 := by
  refine ⟨?_, ?_, ?_, ?_, ?_⟩ <;>
    norm_num [rescaledCaloriesJS, rescaledProteinJS, rescaledCarbsJS,
      rescaledFatsJS, jsDiv, ratioVar, zeroQtyFood]

/-- Core of the round-trip bound: rescaling to 200 g and back at original
multiplier `m = quantity / 100 ≤ 2` moves a value by at most `m/4 + 1/2 ≤ 1`. -/
theorem roundtrip_core (x m : ℚ) (hm : 0 < m) (hm2 : m ≤ 2) :
    |((jsRound ((jsRound (x / m * 2) : ℚ) / 2 * m) : ℚ)) - x| ≤ 1 := by
  have hmne : m ≠ 0 := ne_of_gt hm
  have h1 := jsRound_le (x / m * 2)
  have h2 := jsRound_gt (x / m * 2)
  have h3 := jsRound_le ((jsRound (x / m * 2) : ℚ) / 2 * m)
  have h4 := jsRound_gt ((jsRound (x / m * 2) : ℚ) / 2 * m)
  have hx : x / m * m = x := div_mul_cancel₀ x hmne
  have e1 : (jsRound (x / m * 2) : ℚ) * m ≤ 2 * x + m / 2 := by
    have hh := mul_le_mul_of_nonneg_right h1 hm.le
    nlinarith [hh, hx]
  have e2 : 2 * x - m / 2 < (jsRound (x / m * 2) : ℚ) * m := by
    have hh := mul_lt_mul_of_pos_right h2 hm
    nlinarith [hh, hx]
  rw [abs_le]
  constructor
  · nlinarith [h4, e2, hm2, hm]
  · nlinarith [h3, e1, hm2, hm]

/-- Round-trip bound for the macro fields, which carry an extra factor 10 and
a final division by 10. -/
theorem roundtrip_macro (p m : ℚ) (hm : 0 < m) (hm2 : m ≤ 2) :
    |((jsRound ((jsRound (p / m * 2 * 10) : ℚ) / 10 / 2 * m * 10) : ℚ)) / 10 - p|
      ≤ 1/10 := by
  have h1 : p / m * 2 * 10 = 10 * p / m * 2 := by ring
  rw [h1]
  have h2 : ((jsRound (10 * p / m * 2) : ℚ)) / 10 / 2 * m * 10
      = ((jsRound (10 * p / m * 2) : ℚ)) / 2 * m := by ring
  rw [h2]
  have key := roundtrip_core (10 * p) m hm hm2
  have h3 : ((jsRound ((jsRound (10 * p / m * 2) : ℚ) / 2 * m) : ℚ)) / 10 - p
      = (((jsRound ((jsRound (10 * p / m * 2) : ℚ) / 2 * m) : ℚ)) - 10 * p) / 10 := by
    ring
  rw [h3, abs_div]
  have h10 : |(10:ℚ)| = 10 := by norm_num
  rw [h10]
  linarith

/-- C9 (amended): for an item with `0 < quantity ≤ 200`, rescaling to 200 g
and back to the original quantity returns each scaled value to within the
claimed tolerance (±1 calorie, ±0.1 per macro).  Without the upper bound on
the quantity the claim fails (see the counterexample). -/
theorem rescale_roundtrip (f : ExtraFood) (h0 : 0 < f.quantity)
    (h200 : f.quantity ≤ 200) :
    |(rescaleFood (rescaleFood f 200) f.quantity).calories - f.calories| ≤ 1 ∧
    |(rescaleFood (rescaleFood f 200) f.quantity).protein - f.protein| ≤ 1/10 ∧
    |(rescaleFood (rescaleFood f 200) f.quantity).carbs - f.carbs| ≤ 1/10 ∧
    |(rescaleFood (rescaleFood f 200) f.quantity).fats - f.fats| ≤ 1/10 := by
  have hm : 0 < f.quantity / 100 := div_pos h0 (by norm_num)
  have hm2 : f.quantity / 100 ≤ 2 := by linarith
  refine ⟨?_, ?_, ?_, ?_⟩
  · simp only [rescaleFood]
    rw [show ((200:ℚ)/100) = 2 from by norm_num]
    exact roundtrip_core f.calories (f.quantity / 100) hm hm2
  · simp only [rescaleFood]
    rw [show ((200:ℚ)/100) = 2 from by norm_num]
    exact roundtrip_macro f.protein (f.quantity / 100) hm hm2
  · simp only [rescaleFood]
    rw [show ((200:ℚ)/100) = 2 from by norm_num]
    exact roundtrip_macro f.carbs (f.quantity / 100) hm hm2
  · simp only [rescaleFood]
    rw [show ((200:ℚ)/100) = 2 from by norm_num]
    exact roundtrip_macro f.fats (f.quantity / 100) hm hm2

/-- C9 counterexample: for quantity 1000 g and 2 stored calories, rescaling to
200 g rounds `2 × (200/1000) = 0.4` down to 0, and rescaling back to 1000 g
yields 0 calories — off by 2, outside the claimed ±1 tolerance. -/
theorem rescale_roundtrip_cex :
    ¬ (|(rescaleFood (rescaleFood bigQtyFood 200) bigQtyFood.quantity).calories
        - bigQtyFood.calories| ≤ 1) := by
  norm_num [rescaleFood, bigQtyFood, jsRound]

/-- C9 witness: the bound instantiated at a 100 g item. -/
theorem rescale_roundtrip_w :
    |(rescaleFood (rescaleFood foodA 200) foodA.quantity).calories - foodA.calories|
      ≤ 1 :=
  (rescale_roundtrip foodA (by norm_num [foodA]) (by norm_num [foodA])).1

/-- Unfolding equation for `replaceAll` on a cons cell. -/
theorem replaceAll_cons (c : Char) (r : List Char) :
    replaceAll (c :: r) = (if c = ',' then '.' else c) :: replaceAll r := rfl

/-- Unfolding equation for `replaceFirst` on a cons cell. -/
theorem replaceFirst_cons (c : Char) (r : List Char) :
    replaceFirst (c :: r) = if c = ',' then '.' :: r else c :: replaceFirst r := rfl

/-- Replacing the remaining commas after the first has been replaced gives the
same result as replacing all commas at once. -/
theorem replaceAll_replaceFirst : ∀ s : List Char, replaceAll (replaceFirst s) = replaceAll s
  | [] => rfl
  | c :: r => by
    by_cases hc : c = ','
    · subst hc
      rw [replaceFirst_cons, if_pos rfl, replaceAll_cons, replaceAll_cons]
      norm_num
    · rw [replaceFirst_cons, if_neg hc, replaceAll_cons, replaceAll_cons,
        replaceAll_replaceFirst r]

/-- Digits are untouched by comma replacement, so the digit run is stable. -/
theorem takeWhile_isDigit_replaceAll :
    ∀ u : List Char, (replaceAll u).takeWhile Char.isDigit = u.takeWhile Char.isDigit
  | [] => rfl
  | c :: r => by
    by_cases hc : c = ','
    · subst hc
      rw [replaceAll_cons, if_pos rfl]
      have h1 : Char.isDigit ',' = false := by decide
      have h2 : Char.isDigit '.' = false := by decide
      simp [List.takeWhile_cons, h1, h2]
    · rw [replaceAll_cons, if_neg hc, List.takeWhile_cons, List.takeWhile_cons]
      by_cases hd : Char.isDigit c = true
      · simp [hd, takeWhile_isDigit_replaceAll r]
      · simp [hd]

/-- Comma replacement commutes with dropping the digit run. -/
theorem dropWhile_isDigit_replaceAll :
    ∀ u : List Char, (replaceAll u).dropWhile Char.isDigit = replaceAll (u.dropWhile Char.isDigit)
  | [] => rfl
  | c :: r => by
    by_cases hc : c = ','
    · subst hc
      rw [replaceAll_cons, if_pos rfl]
      have h1 : Char.isDigit ',' = false := by decide
      have h2 : Char.isDigit '.' = false := by decide
      simp [List.dropWhile_cons, h1, h2, replaceAll_cons]
    · rw [replaceAll_cons, if_neg hc, List.dropWhile_cons, List.dropWhile_cons]
      by_cases hd : Char.isDigit c = true
      · simp [hd, dropWhile_isDigit_replaceAll r]
      · simp [hd, replaceAll_cons, if_neg hc]

/-- First-comma replacement commutes with dropping the digit run. -/
theorem dropWhile_isDigit_replaceFirst :
    ∀ u : List Char,
      (replaceFirst u).dropWhile Char.isDigit = replaceFirst (u.dropWhile Char.isDigit)
  | [] => rfl
  | c :: r => by
    by_cases hc : c = ','
    · subst hc
      rw [replaceFirst_cons, if_pos rfl]
      have h1 : Char.isDigit ',' = false := by decide
      have h2 : Char.isDigit '.' = false := by decide
      simp [List.dropWhile_cons, h1, h2, replaceFirst_cons]
    · rw [replaceFirst_cons, if_neg hc, List.dropWhile_cons, List.dropWhile_cons]
      by_cases hd : Char.isDigit c = true
      · simp [hd, dropWhile_isDigit_replaceFirst r]
      · simp [hd, replaceFirst_cons, if_neg hc]

/-- The digit run is also stable under first-comma replacement. -/
theorem takeWhile_isDigit_replaceFirst (u : List Char) :
    (replaceFirst u).takeWhile Char.isDigit = u.takeWhile Char.isDigit := by
  have h1 := takeWhile_isDigit_replaceAll (replaceFirst u)
  rw [replaceAll_replaceFirst u] at h1
  rw [← h1, takeWhile_isDigit_replaceAll u]

/-- Leading whitespace is stable under all-comma replacement. -/
theorem dropWhile_ws_replaceAll :
    ∀ s : List Char,
      (replaceAll s).dropWhile Char.isWhitespace = replaceAll (s.dropWhile Char.isWhitespace)
  | [] => rfl
  | c :: r => by
    by_cases hc : c = ','
    · subst hc
      have h1 : Char.isWhitespace ',' = false := by decide
      have h2 : Char.isWhitespace '.' = false := by decide
      rw [replaceAll_cons, if_pos rfl]
      simp [List.dropWhile_cons, h1, h2, replaceAll_cons]
    · rw [replaceAll_cons, if_neg hc, List.dropWhile_cons, List.dropWhile_cons]
      by_cases hw : Char.isWhitespace c = true
      · simp [hw, dropWhile_ws_replaceAll r]
      · simp [hw, replaceAll_cons, if_neg hc]

/-- Leading whitespace is stable under first-comma replacement. -/
theorem dropWhile_ws_replaceFirst :
    ∀ s : List Char,
      (replaceFirst s).dropWhile Char.isWhitespace = replaceFirst (s.dropWhile Char.isWhitespace)
  | [] => rfl
  | c :: r => by
    by_cases hc : c = ','
    · subst hc
      have h1 : Char.isWhitespace ',' = false := by decide
      have h2 : Char.isWhitespace '.' = false := by decide
      rw [replaceFirst_cons, if_pos rfl]
      simp [List.dropWhile_cons, h1, h2, replaceFirst_cons]
    · rw [replaceFirst_cons, if_neg hc, List.dropWhile_cons, List.dropWhile_cons]
      by_cases hw : Char.isWhitespace c = true
      · simp [hw, dropWhile_ws_replaceFirst r]
      · simp [hw, replaceFirst_cons, if_neg hc]

/-- The exponent value is unchanged by all-comma replacement: commas and
periods are equally invalid in every position of an exponent. -/
theorem parseExpDigits_replaceAll :
    ∀ d : List Char, parseExpDigits (replaceAll d) = parseExpDigits d
  | [] => rfl
  | x :: r => by
    by_cases hx : x = ','
    · subst hx
      rw [replaceAll_cons, if_pos rfl]
      have hs1 : ¬('.' = '+' ∨ '.' = '-') := by decide
      have hs2 : ¬(',' = '+' ∨ ',' = '-') := by decide
      have h1 : Char.isDigit ',' = false := by decide
      have h2 : Char.isDigit '.' = false := by decide
      simp only [parseExpDigits]
      rw [if_neg hs1, if_neg hs2]
      simp [List.takeWhile_cons, h1, h2]
    · rw [replaceAll_cons, if_neg hx]
      simp only [parseExpDigits]
      by_cases hsign : x = '+' ∨ x = '-'
      · rw [if_pos hsign, if_pos hsign, takeWhile_isDigit_replaceAll r]
      · rw [if_neg hsign, if_neg hsign]
        have hxx : (x :: replaceAll r) = replaceAll (x :: r) := by
          rw [replaceAll_cons, if_neg hx]
        rw [hxx, takeWhile_isDigit_replaceAll (x :: r)]

/-- The exponent dispatch is likewise unchanged by all-comma replacement. -/
theorem parseExponent_replaceAll :
    ∀ u : List Char, parseExponent (replaceAll u) = parseExponent u
  | [] => rfl
  | c :: rest => by
    by_cases hc : c = ','
    · subst hc
      rw [replaceAll_cons, if_pos rfl]
      simp only [parseExponent]
      rw [if_neg (by decide : ¬('.' = 'e' ∨ '.' = 'E')),
        if_neg (by decide : ¬(',' = 'e' ∨ ',' = 'E'))]
    · rw [replaceAll_cons, if_neg hc]
      simp only [parseExponent]
      by_cases he : c = 'e' ∨ c = 'E'
      · rw [if_pos he, if_pos he]
        exact parseExpDigits_replaceAll rest
      · rw [if_neg he, if_neg he]

/-- The exponent value is unchanged by first-comma replacement. -/
theorem parseExponent_replaceFirst (u : List Char) :
    parseExponent (replaceFirst u) = parseExponent u := by
  have h1 := parseExponent_replaceAll (replaceFirst u)
  rw [replaceAll_replaceFirst u] at h1
  rw [← h1, parseExponent_replaceAll u]

/-- The post-decimal-point parse is unchanged by all-comma replacement: the
fraction digits are stable and whatever follows them only matters through the
exponent dispatch. -/
theorem parseFrac_replaceAll (ip u : List Char) :
    parseFrac ip (replaceAll u) = parseFrac ip u := by
  simp only [parseFrac]
  rw [takeWhile_isDigit_replaceAll, dropWhile_isDigit_replaceAll,
    parseExponent_replaceAll]

/-- The post-decimal-point parse is unchanged by first-comma replacement. -/
theorem parseFrac_replaceFirst (ip u : List Char) :
    parseFrac ip (replaceFirst u) = parseFrac ip u := by
  have h1 := parseFrac_replaceAll ip (replaceFirst u)
  rw [replaceAll_replaceFirst u] at h1
  rw [← h1, parseFrac_replaceAll ip u]

/-- After the integer digits, first-comma and all-comma replacement of the
remainder parse identically: a leading comma and a leading period both select
the fraction arm, and past a consumed decimal point (or in an exponent) commas
and periods are equally terminators. -/
theorem parseAfterDigits_replace (ip : List Char) :
    ∀ u : List Char,
      parseAfterDigits ip (replaceFirst u) = parseAfterDigits ip (replaceAll u)
  | [] => rfl
  | c :: r => by
    by_cases hc : c = ','
    · subst hc
      rw [replaceFirst_cons, if_pos rfl, replaceAll_cons, if_pos rfl]
      simp only [parseAfterDigits, if_true]
      rw [parseFrac_replaceAll]
    · rw [replaceFirst_cons, if_neg hc, replaceAll_cons, if_neg hc]
      simp only [parseAfterDigits]
      by_cases hdot : c = '.'
      · rw [if_pos hdot, if_pos hdot, parseFrac_replaceFirst, parseFrac_replaceAll]
      · rw [if_neg hdot, if_neg hdot]
        by_cases hip : ip.isEmpty = true
        · rw [if_pos hip, if_pos hip]
        · rw [if_neg hip, if_neg hip]
          have e1 : (c :: replaceFirst r) = replaceFirst (c :: r) := by
            rw [replaceFirst_cons, if_neg hc]
          have e2 : (c :: replaceAll r) = replaceAll (c :: r) := by
            rw [replaceAll_cons, if_neg hc]
          rw [e1, e2, parseExponent_replaceFirst, parseExponent_replaceAll]

/-- The unsigned-literal parse gives the same value whether only the first or
every comma has been replaced by a period. -/
theorem parseUnsigned_replace (t : List Char) :
    parseUnsigned (replaceFirst t) = parseUnsigned (replaceAll t) := by
  unfold parseUnsigned
  rw [takeWhile_isDigit_replaceFirst, takeWhile_isDigit_replaceAll,
    dropWhile_isDigit_replaceFirst, dropWhile_isDigit_replaceAll]
  exact parseAfterDigits_replace _ _

/-- A literal starting at a period parses as a bare fraction. -/
theorem parseUnsigned_dot (v : List Char) : parseUnsigned ('.' :: v) = parseFrac [] v := by
  unfold parseUnsigned
  have hd : Char.isDigit '.' = false := by decide
  simp [List.takeWhile_cons, List.dropWhile_cons, hd, parseAfterDigits]

/-- The signed-literal parse gives the same value under either replacement. -/
theorem parseSigned_replace (w : List Char) :
    parseSigned (replaceFirst w) = parseSigned (replaceAll w) := by
  cases w with
  | nil => rfl
  | cons c r =>
    by_cases hc : c = ','
    · subst hc
      rw [replaceFirst_cons, if_pos rfl, replaceAll_cons, if_pos rfl]
      simp only [parseSigned]
      rw [if_neg (by decide : ¬('.' = '+')), if_neg (by decide : ¬('.' = '+')),
        if_neg (by decide : ¬('.' = '-')), if_neg (by decide : ¬('.' = '-')),
        parseUnsigned_dot, parseUnsigned_dot, parseFrac_replaceAll]
    · rw [replaceFirst_cons, if_neg hc, replaceAll_cons, if_neg hc]
      simp only [parseSigned]
      by_cases hplus : c = '+'
      · rw [if_pos hplus, if_pos hplus, parseUnsigned_replace r]
      · rw [if_neg hplus, if_neg hplus]
        by_cases hminus : c = '-'
        · rw [if_pos hminus, if_pos hminus, parseUnsigned_replace r]
        · rw [if_neg hminus, if_neg hminus]
          have e1 : (c :: replaceFirst r) = replaceFirst (c :: r) := by
            rw [replaceFirst_cons, if_neg hc]
          have e2 : (c :: replaceAll r) = replaceAll (c :: r) := by
            rw [replaceAll_cons, if_neg hc]
          rw [e1, e2, parseUnsigned_replace (c :: r)]

/-- Replacing only the first comma (as the source does) and replacing every
comma (as the specification says) give the same `parseFloat` result on every
string. -/
theorem parseFloatJS_replace (s : List Char) :
    parseFloatJS (replaceFirst s) = parseFloatJS (replaceAll s) := by
  unfold parseFloatJS
  rw [dropWhile_ws_replaceFirst, dropWhile_ws_replaceAll]
  exact parseSigned_replace _

/-- C5: `parseBrazilianNumber` behaves exactly as the specification's
description — numbers pass through, null, undefined and the empty string give
0, and any other input parses as a floating-point literal after comma
replacement, with malformed input giving 0.  The source replaces only the
first comma while the specification says every comma; the two pipelines are
proved extensionally equal (`parseFloatJS_replace`), so the described
behaviour is exactly the implemented one.  The spec's concrete examples hold:
`"2,5" ↦ 2.5`, `"" ↦ 0`, `undefined ↦ 0`, `"abc" ↦ 0`, `42 ↦ 42`. -/
theorem parseBrazilianNumber_spec :
    (∀ v : JSVal, parseBrazilianNumber v = parseLocaleNumberSpec v) ∧
    parseBrazilianNumber (JSVal.str "2,5".data) = 5/2 ∧
    parseBrazilianNumber (JSVal.str "".data) = 0 ∧
    parseBrazilianNumber JSVal.undefined = 0 ∧
    parseBrazilianNumber JSVal.null = 0 ∧
    parseBrazilianNumber (JSVal.str "abc".data) = 0 ∧
    (∀ q : ℚ, parseBrazilianNumber (JSVal.num q) = q) ∧
    parseBrazilianNumber (JSVal.num 42) = 42 := by
  refine ⟨?_, ?_, rfl, rfl, rfl, ?_, fun q => rfl, rfl⟩
  · intro v
    cases v with
    | num q => rfl
    | null => rfl
    | undefined => rfl
    | str s =>
      simp only [parseBrazilianNumber, parseLocaleNumberSpec]
      rw [parseFloatJS_replace]
  · simp +decide [parseBrazilianNumber, parseFloatJS, parseSigned, parseUnsigned,
      parseAfterDigits, parseFrac, parseExponent, parseExpDigits, replaceFirst,
      List.takeWhile, List.dropWhile, digitsToNat, digitVal]
    norm_num
  · simp +decide [parseBrazilianNumber, parseFloatJS, parseSigned, parseUnsigned,
      parseAfterDigits, parseFrac, parseExponent, parseExpDigits, replaceFirst,
      List.takeWhile, List.dropWhile, digitsToNat, digitVal]
